import Mathlib

/-!
Shallow embedding of `src/naca4.py` (NACA 4-digit airfoil coordinate
generator) over the real numbers.  numpy arrays become `List ℝ`,
elementwise array arithmetic becomes `List.map` / `List.zipWith`, and
`np.where` over arrays derived from the station vector becomes a
pointwise conditional mapped over the stations.  `np.sqrt`, `np.arctan`
and `np.cos` are modelled by `Real.sqrt`, `Real.arctan` and `Real.cos`.
-/

namespace Naca4

noncomputable section

/-- Station `i` of `np.linspace(0, c, n)`: `x_i = i/(n-1) * c` (real
division, so the degenerate counts `n = 0, 1` still denote). -/
def station (c : ℝ) (n : ℕ) (i : ℕ) : ℝ :=
  (i : ℝ) / ((n : ℝ) - 1) * c

/-- The station vector `x = np.linspace(0, c, num_points)`. -/
def linspace (c : ℝ) (n : ℕ) : List ℝ :=
  (List.range n).map (station c n)

/-- Pointwise thickness distribution from the source line
`yt = (t / 0.20) * c * (0.2969 * np.sqrt(x / c) - 0.1260 * (x / c)
  - 0.3516 * (x / c)**2 + 0.2843 * (x / c)**3 - 0.1015 * (x / c)**4)`. -/
def ytP (t c x : ℝ) : ℝ :=
  (t / 0.20) * c * (0.2969 * Real.sqrt (x / c) - 0.1260 * (x / c)
    - 0.3516 * (x / c) ^ 2 + 0.2843 * (x / c) ^ 3 - 0.1015 * (x / c) ^ 4)

/-- Front-loaded camber formula, the first branch of the `np.where` for `yc`:
`(m / p**2) * (2 * p * (x / c) - (x / c)**2)`. -/
def ycFront (m p c x : ℝ) : ℝ :=
  (m / p ^ 2) * (2 * p * (x / c) - (x / c) ^ 2)

/-- Aft camber formula, the second branch of the `np.where` for `yc`:
`(m / (1 - p)**2) * ((1 - 2 * p) + 2 * p * (x / c) - (x / c)**2)`. -/
def ycBack (m p c x : ℝ) : ℝ :=
  (m / (1 - p) ^ 2) * ((1 - 2 * p) + 2 * p * (x / c) - (x / c) ^ 2)

/-- Front-loaded camber-slope formula: `(2 * m / p**2) * (p - x / c)`. -/
def dycFront (m p c x : ℝ) : ℝ :=
  (2 * m / p ^ 2) * (p - x / c)

/-- Aft camber-slope formula: `(2 * m / (1 - p)**2) * (p - x / c)`. -/
def dycBack (m p c x : ℝ) : ℝ :=
  (2 * m / (1 - p) ^ 2) * (p - x / c)

/-- The thickness array `yt` of the source, elementwise over `x`. -/
def yt (t c : ℝ) (x : List ℝ) : List ℝ :=
  x.map (ytP t c)

/-- The camber-line array `yc` of the source: `np.zeros_like(x)` when
`p == 0`, otherwise `np.where(x <= p * c, front, back)` elementwise. -/
def yc (m p c : ℝ) (x : List ℝ) : List ℝ :=
  if p = 0 then x.map (fun _ => 0)
  else x.map (fun xi => if xi ≤ p * c then ycFront m p c xi else ycBack m p c xi)

/-- The camber-slope array `dyc_dx` of the source: `np.zeros_like(x)` when
`p == 0`, otherwise `np.where(x <= p * c, front, back)` elementwise. -/
def dyc_dx (m p c : ℝ) (x : List ℝ) : List ℝ :=
  if p = 0 then x.map (fun _ => 0)
  else x.map (fun xi => if xi ≤ p * c then dycFront m p c xi else dycBack m p c xi)

/-- The function `naca4(m, p, t, c=1, num_points=1000)` of the source,
returning `(x, y_upper, y_lower)`. -/
def naca4 (m p t c : ℝ) (num_points : ℕ := 1000) : List ℝ × List ℝ × List ℝ :=
  let x := linspace c num_points
  let ytv := yt t c x
  let ycv := yc m p c x
  let dycv := dyc_dx m p c x
  let theta := dycv.map Real.arctan
  let y_upper := List.zipWith (fun a b => a + b) ycv
    (List.zipWith (fun a b => a * Real.cos b) ytv theta)
  let y_lower := List.zipWith (fun a b => a - b) ycv
    (List.zipWith (fun a b => a * Real.cos b) ytv theta)
  (x, y_upper, y_lower)

/-- Pointwise camber line (both branches of the source collapsed to a
single scalar function). -/
def ycP (m p c x : ℝ) : ℝ :=
  if p = 0 then 0
  else if x ≤ p * c then ycFront m p c x else ycBack m p c x

/-- Pointwise camber slope. -/
def dycP (m p c x : ℝ) : ℝ :=
  if p = 0 then 0
  else if x ≤ p * c then dycFront m p c x else dycBack m p c x

/-- Pointwise upper surface: `yc + yt * cos(arctan(dyc_dx))`. -/
def yUpperP (m p t c x : ℝ) : ℝ :=
  ycP m p c x + ytP t c x * Real.cos (Real.arctan (dycP m p c x))

/-- Pointwise lower surface: `yc - yt * cos(arctan(dyc_dx))`. -/
def yLowerP (m p t c x : ℝ) : ℝ :=
  ycP m p c x - ytP t c x * Real.cos (Real.arctan (dycP m p c x))

lemma yc_eq_map (m p c : ℝ) (x : List ℝ) :
    yc m p c x = x.map (ycP m p c) := by
  unfold yc ycP
  by_cases hp : p = 0
  · simp only [if_pos hp]
  · simp only [if_neg hp]

lemma dyc_eq_map (m p c : ℝ) (x : List ℝ) :
    dyc_dx m p c x = x.map (dycP m p c) := by
  unfold dyc_dx dycP
  by_cases hp : p = 0
  · simp only [if_pos hp]
  · simp only [if_neg hp]

/-- Structural characterisation of `naca4`: all three outputs are maps of
pointwise functions over the station vector. -/
lemma naca4_eq (m p t c : ℝ) (n : ℕ) :
    naca4 m p t c n =
      (linspace c n, (linspace c n).map (yUpperP m p t c),
        (linspace c n).map (yLowerP m p t c)) := by
  simp only [naca4, yt, yc_eq_map, dyc_eq_map, List.map_map,
    List.zipWith_map, List.zipWith_same]
  rfl

lemma getD_map_range (f : ℕ → ℝ) (n i : ℕ) (hi : i < n) :
    ((List.range n).map f).getD i 0 = f i := by
  rw [List.getD_eq_getElem?_getD]
  simp [List.getElem?_map, List.getElem?_range, hi]

/-- With zero camber position the pointwise camber line vanishes, so the
lower surface is the pointwise negation of the upper surface. -/
lemma yLowerP_p0 (m t c x : ℝ) :
    yLowerP m 0 t c x = -yUpperP m 0 t c x := by
  simp [yLowerP, yUpperP, ycP, dycP]

/-- With zero camber position the lower-surface list is the elementwise
negation of the upper-surface list. -/
lemma naca4_lower_neg_upper (m t c : ℝ) (n : ℕ) :
    (naca4 m 0 t c n).2.2 = ((naca4 m 0 t c n).2.1).map (fun y => -y) := by
  rw [naca4_eq]
  simp only [List.map_map]
  exact List.map_congr_left (fun x _ => by
    simpa [Function.comp] using yLowerP_p0 m t c x)

/-- Core positivity of the NACA thickness polynomial after the
substitution `u = sqrt(x/c)`:
`0.2969 u − 0.1260 u² − 0.3516 u⁴ + 0.2843 u⁶ − 0.1015 u⁸ ≥ 0` on `[0,1]`. -/
lemma thickness_poly_nonneg (u : ℝ) (hu0 : 0 ≤ u) (hu1 : u ≤ 1) :
    0 ≤ 0.2969 * u - 0.1260 * u ^ 2 - 0.3516 * u ^ 4
      + 0.2843 * u ^ 6 - 0.1015 * u ^ 8 := by
  have h3 : (0 : ℝ) ≤ 1 - u := by linarith
  have h2 : (0 : ℝ) ≤ (1 - u) * u * (u + 1) :=
    mul_nonneg (mul_nonneg h3 hu0) (by linarith)
  have h1 : (0 : ℝ) ≤ (1 - u) * u * (u + 1) * (2030 * u ^ 2 - 1828) ^ 2 :=
    mul_nonneg h2 (sq_nonneg _)
  have hg : (0 : ℝ) ≤ 2969 - 1260 * u - 3516 * u ^ 3
      + 2843 * u ^ 5 - 1015 * u ^ 7 := by
    nlinarith [h1, h2, h3]
  nlinarith [mul_nonneg hu0 hg]

/-- The station-level thickness `ytP` is nonnegative for nonnegative
maximum thickness, positive chord, and a station inside `[0, c]`. -/
lemma ytP_nonneg (t c x : ℝ) (ht : 0 ≤ t) (hc : 0 < c)
    (hx0 : 0 ≤ x) (hxc : x ≤ c) : 0 ≤ ytP t c x := by
  have hs0 : 0 ≤ x / c := div_nonneg hx0 hc.le
  have hs1 : x / c ≤ 1 := (div_le_one hc).mpr hxc
  have hu0 : 0 ≤ Real.sqrt (x / c) := Real.sqrt_nonneg _
  have hu1 : Real.sqrt (x / c) ≤ 1 := Real.sqrt_le_one.mpr hs1
  have hu2 : Real.sqrt (x / c) ^ 2 = x / c := Real.sq_sqrt hs0
  have hpoly := thickness_poly_nonneg (Real.sqrt (x / c)) hu0 hu1
  have hfac : (0 : ℝ) ≤ t / 0.20 * c :=
    mul_nonneg (div_nonneg ht (by norm_num)) hc.le
  have key : 0 ≤ 0.2969 * Real.sqrt (x / c) - 0.1260 * (x / c)
      - 0.3516 * (x / c) ^ 2 + 0.2843 * (x / c) ^ 3 - 0.1015 * (x / c) ^ 4 := by
    set u := Real.sqrt (x / c) with hu
    rw [← hu2]
    nlinarith [hpoly]
  unfold ytP
  exact mul_nonneg hfac key

/-- Every station of `linspace c n` lies in `[0, c]` when `c > 0` and
`n ≥ 2`. -/
lemma station_mem_bounds (c : ℝ) (n : ℕ) (hc : 0 < c) (hn : 2 ≤ n)
    (i : ℕ) (hi : i < n) : 0 ≤ station c n i ∧ station c n i ≤ c := by
  have hden : (0 : ℝ) < (n : ℝ) - 1 := by
    have : (2 : ℝ) ≤ (n : ℝ) := by exact_mod_cast hn
    linarith
  have hratio0 : 0 ≤ (i : ℝ) / ((n : ℝ) - 1) :=
    div_nonneg (Nat.cast_nonneg i) hden.le
  have hile : (i : ℝ) ≤ (n : ℝ) - 1 := by
    have : (i : ℝ) + 1 ≤ (n : ℝ) := by exact_mod_cast hi
    linarith
  have hratio1 : (i : ℝ) / ((n : ℝ) - 1) ≤ 1 :=
    (div_le_one hden).mpr hile
  constructor
  · exact mul_nonneg hratio0 hc.le
  · have h := mul_le_mul_of_nonneg_right hratio1 hc.le
    rw [one_mul] at h
    exact h

/-- Pointwise no-crossing: the lower surface value never exceeds the upper
surface value when the thickness offset is nonnegative. -/
lemma yLowerP_le_yUpperP (m p t c x : ℝ) (ht : 0 ≤ t) (hc : 0 < c)
    (hx0 : 0 ≤ x) (hxc : x ≤ c) :
    yLowerP m p t c x ≤ yUpperP m p t c x := by
  unfold yLowerP yUpperP
  have h1 := ytP_nonneg t c x ht hc hx0 hxc
  have h2 := Real.cos_arctan_pos (dycP m p c x)
  nlinarith [mul_nonneg h1 h2.le]

/-- Claim C1: for every call with `p ≠ 0` the camber line and its slope are
computed per station by the piecewise rule — at stations with `x ≤ p·c` the
front formulas `(m/p²)(2p(x/c) − (x/c)²)` and `(2m/p²)(p − x/c)` apply, at
stations with `x > p·c` the aft formulas apply — with the branch selected
independently for each station. -/
theorem naca4_camber_piecewise_per_station (m p c : ℝ) (n : ℕ) (hp : p ≠ 0) :
    yc m p c (linspace c n) = (List.range n).map (fun i =>
      if station c n i ≤ p * c then ycFront m p c (station c n i)
      else ycBack m p c (station c n i)) ∧
    dyc_dx m p c (linspace c n) = (List.range n).map (fun i =>
      if station c n i ≤ p * c then dycFront m p c (station c n i)
      else dycBack m p c (station c n i)) := by
  constructor <;>
    simp only [yc, dyc_dx, if_neg hp, linspace, List.map_map, Function.comp_def]

theorem naca4_camber_piecewise_witness :
    ((1 : ℝ) / 2 ≠ 0) ∧
    (yc 1 (1 / 2) 1 (linspace 1 2) = (List.range 2).map (fun i =>
      if station 1 2 i ≤ (1 / 2) * 1 then ycFront 1 (1 / 2) 1 (station 1 2 i)
      else ycBack 1 (1 / 2) 1 (station 1 2 i)) ∧
    dyc_dx 1 (1 / 2) 1 (linspace 1 2) = (List.range 2).map (fun i =>
      if station 1 2 i ≤ (1 / 2) * 1 then dycFront 1 (1 / 2) 1 (station 1 2 i)
      else dycBack 1 (1 / 2) 1 (station 1 2 i))) :=
  ⟨by norm_num, naca4_camber_piecewise_per_station 1 (1 / 2) 1 2 (by norm_num)⟩

/-- Claim C2: `naca4` is a total function — for any real parameters
(including `p = 1`, `c = 0`) and any sample count (including `n < 2`) it
returns three arrays of length `n`; degenerate inputs only degrade the
values (in the float source NaN/Inf, here the junk values of total real
division), never the shape, and no error is raised. -/
theorem naca4_total_no_failure (m p t c : ℝ) (n : ℕ) :
    (naca4 m p t c n).1.length = n ∧
    (naca4 m p t c n).2.1.length = n ∧
    (naca4 m p t c n).2.2.length = n := by
  rw [naca4_eq]
  simp [linspace]

/-- Claim C4: at every station the returned surfaces are obtained from the
camber line, thickness and camber slope by `θ = arctan(dyc/dx)`,
`y_upper = yc + yt·cos θ`, `y_lower = yc − yt·cos θ`. -/
theorem naca4_surfaces_normal_offset (m p t c : ℝ) (n : ℕ) :
    (naca4 m p t c n).2.1 = (linspace c n).map (fun x =>
      ycP m p c x + ytP t c x * Real.cos (Real.arctan (dycP m p c x))) ∧
    (naca4 m p t c n).2.2 = (linspace c n).map (fun x =>
      ycP m p c x - ytP t c x * Real.cos (Real.arctan (dycP m p c x))) := by
  rw [naca4_eq]
  exact ⟨rfl, rfl⟩

/-- Claim C5: the thickness distribution used for both surfaces is exactly
`yt(x) = (t/0.20)·c·(0.2969·√(x/c) − 0.1260·(x/c) − 0.3516·(x/c)² +
0.2843·(x/c)³ − 0.1015·(x/c)⁴)`, independent of the camber parameters `m`
and `p`: the gap `y_upper − y_lower` is `2·yt·cos θ` at every station, with
`yt` not mentioning `m` or `p`. -/
theorem naca4_thickness_distribution (m p t c : ℝ) (n : ℕ) :
    (∀ x : ℝ, ytP t c x = (t / 0.20) * c * (0.2969 * Real.sqrt (x / c)
      - 0.1260 * (x / c) - 0.3516 * (x / c) ^ 2 + 0.2843 * (x / c) ^ 3
      - 0.1015 * (x / c) ^ 4)) ∧
    List.zipWith (fun a b => a - b) (naca4 m p t c n).2.1 (naca4 m p t c n).2.2
      = (linspace c n).map (fun x =>
          2 * ytP t c x * Real.cos (Real.arctan (dycP m p c x))) := by
  refine ⟨fun x => rfl, ?_⟩
  rw [naca4_eq]
  simp only [List.zipWith_map, List.zipWith_same]
  exact List.map_congr_left (fun x _ => by unfold yUpperP yLowerP; ring)

/-- Claim C6: when `p = 0` the camber arrays are the all-zero arrays,
produced by the special-cased `p == 0` branch of `yc` and `dyc_dx` (the
general piecewise formula, with its `p²` denominator, is not evaluated). -/
theorem naca4_symmetric_fast_path (m p c : ℝ) (x : List ℝ) (hp : p = 0) :
    yc m p c x = x.map (fun _ => 0) ∧ dyc_dx m p c x = x.map (fun _ => 0) := by
  subst hp
  constructor <;> simp [yc, dyc_dx]

theorem naca4_symmetric_fast_path_witness :
    ((0 : ℝ) = 0) ∧
    (yc 1 0 1 [1] = [(1 : ℝ)].map (fun _ => 0) ∧
     dyc_dx 1 0 1 [1] = [(1 : ℝ)].map (fun _ => 0)) :=
  ⟨rfl, naca4_symmetric_fast_path 1 0 1 [1] rfl⟩

/-- Claim C7: for every call with `p = 0` (any `m`, `t`, `c`, `n`), the
output satisfies `y_upper[i] = −y_lower[i]` at every station index `i`. -/
theorem naca4_symmetric_upper_neg_lower (m t c : ℝ) (n i : ℕ) (hi : i < n) :
    (naca4 m 0 t c n).2.1.getD i 0 = -((naca4 m 0 t c n).2.2.getD i 0) := by
  rw [naca4_lower_neg_upper, naca4_eq]
  simp only [List.map_map, linspace]
  rw [getD_map_range _ _ _ hi, getD_map_range _ _ _ hi]
  simp [Function.comp]

theorem naca4_symmetric_upper_neg_lower_witness :
    (0 < 2) ∧
    (naca4 0 0 0 1 2).2.1.getD 0 0 = -((naca4 0 0 0 1 2).2.2.getD 0 0) :=
  ⟨by norm_num, naca4_symmetric_upper_neg_lower 0 0 1 2 0 (by norm_num)⟩

/-- Claim C8: for `p ∈ (0,1)` (and a nonzero chord, so that `x/c = p` at
the break) the two piecewise camber formulas agree at the break point
`x = p·c`: both evaluate to `m` there, so the camber line is continuous at
the break. -/
theorem naca4_camber_continuous_at_break (m p c : ℝ) (hp0 : 0 < p)
    (hp1 : p < 1) (hc : c ≠ 0) :
    ycFront m p c (p * c) = ycBack m p c (p * c) := by
  have h1 : p ≠ 0 := ne_of_gt hp0
  have h2 : (1 : ℝ) - p ≠ 0 := sub_ne_zero.mpr (ne_of_gt hp1)
  unfold ycFront ycBack
  rw [mul_div_cancel_right₀ _ hc]
  field_simp
  ring

theorem naca4_camber_continuous_at_break_witness :
    (0 < (1 : ℝ) / 2) ∧ ((1 : ℝ) / 2 < 1) ∧ ((1 : ℝ) ≠ 0) ∧
    ycFront 1 (1 / 2) 1 ((1 / 2) * 1) = ycBack 1 (1 / 2) 1 ((1 / 2) * 1) :=
  ⟨by norm_num, by norm_num, by norm_num,
    naca4_camber_continuous_at_break 1 (1 / 2) 1 (by norm_num) (by norm_num)
      (by norm_num)⟩

/-- Claim C9: for `n ≥ 2` the three returned sequences all have length `n`,
the stations are `x_i = i/(n−1)·c` (evenly spaced), and `x[0] = 0`,
`x[n−1] = c`. -/
theorem naca4_stations_evenly_spaced (m p t c : ℝ) (n : ℕ) (hn : 2 ≤ n) :
    (naca4 m p t c n).1.length = n ∧
    (naca4 m p t c n).2.1.length = n ∧
    (naca4 m p t c n).2.2.length = n ∧
    (naca4 m p t c n).1 =
      (List.range n).map (fun i : ℕ => (i : ℝ) / ((n : ℝ) - 1) * c) ∧
    (naca4 m p t c n).1.getD 0 0 = 0 ∧
    (naca4 m p t c n).1.getD (n - 1) 0 = c := by
  have h0 : 0 < n := by omega
  have hn1 : n - 1 < n := by omega
  have hne : (n : ℝ) - 1 ≠ 0 := by
    have h2 : (2 : ℝ) ≤ (n : ℝ) := by exact_mod_cast hn
    intro h
    linarith
  rw [naca4_eq]
  refine ⟨by simp [linspace], by simp [linspace], by simp [linspace], rfl,
    ?_, ?_⟩
  · show (linspace c n).getD 0 0 = 0
    unfold linspace
    rw [getD_map_range _ _ _ h0]
    simp [station]
  · show (linspace c n).getD (n - 1) 0 = c
    unfold linspace
    rw [getD_map_range _ _ _ hn1]
    unfold station
    have hcast : ((n - 1 : ℕ) : ℝ) = (n : ℝ) - 1 := by
      rw [Nat.cast_sub (by omega : 1 ≤ n), Nat.cast_one]
    rw [hcast, div_self hne, one_mul]

theorem naca4_stations_evenly_spaced_witness :
    (2 ≤ 2) ∧
    ((naca4 0 0 0 1 2).1.length = 2 ∧
     (naca4 0 0 0 1 2).2.1.length = 2 ∧
     (naca4 0 0 0 1 2).2.2.length = 2 ∧
     (naca4 0 0 0 1 2).1 =
       (List.range 2).map (fun i : ℕ => (i : ℝ) / (((2 : ℕ) : ℝ) - 1) * 1) ∧
     (naca4 0 0 0 1 2).1.getD 0 0 = 0 ∧
     (naca4 0 0 0 1 2).1.getD (2 - 1) 0 = 1) :=
  ⟨by norm_num, naca4_stations_evenly_spaced 0 0 0 1 2 (by norm_num)⟩

/-- Claim C10: for `t ≥ 0`, `c > 0`, `p ∈ [0,1)` and `n ≥ 2`, the surfaces
never cross: `y_lower[i] ≤ y_upper[i]` at every station, since
`cos (arctan ·)` is positive and the thickness polynomial is nonnegative
on `[0, c]`. -/
theorem naca4_surfaces_no_crossing (m p t c : ℝ) (n : ℕ) (ht : 0 ≤ t)
    (hc : 0 < c) (hp0 : 0 ≤ p) (hp1 : p < 1) (hn : 2 ≤ n) :
    List.Forall₂ (fun lo up => lo ≤ up)
      (naca4 m p t c n).2.2 (naca4 m p t c n).2.1 := by
  rw [naca4_eq]
  show List.Forall₂ _ ((linspace c n).map (yLowerP m p t c))
    ((linspace c n).map (yUpperP m p t c))
  rw [List.forall₂_map_left_iff, List.forall₂_map_right_iff, List.forall₂_same]
  intro x hx
  unfold linspace at hx
  rcases List.mem_map.mp hx with ⟨i, hi, rfl⟩
  rcases station_mem_bounds c n hc hn i (List.mem_range.mp hi) with ⟨hx0, hxc⟩
  exact yLowerP_le_yUpperP m p t c _ ht hc hx0 hxc

theorem naca4_surfaces_no_crossing_witness :
    ((0 : ℝ) ≤ 0) ∧ ((0 : ℝ) < 1) ∧ ((0 : ℝ) ≤ 0) ∧ ((0 : ℝ) < 1) ∧ (2 ≤ 2) ∧
    List.Forall₂ (fun lo up => lo ≤ up)
      (naca4 0 0 0 1 2).2.2 (naca4 0 0 0 1 2).2.1 :=
  ⟨le_refl 0, by norm_num, le_refl 0, by norm_num, by norm_num,
    naca4_surfaces_no_crossing 0 0 0 1 2 (le_refl 0) (by norm_num) (le_refl 0)
      (by norm_num) (by norm_num)⟩

/-- Concrete evaluation of the second upper-surface ordinate of
`naca4(0, 0, 0.12, 1, 5)`: the station is `x = 1/4`, the camber terms
vanish, `cos (arctan 0) = 1`, and the thickness polynomial at
`x/c = 1/4` with `t = 0.12` gives exactly `760479/12800000 ≈ 0.0594124`. -/
lemma naca4_0012_upper_at_quarter :
    (naca4 0 0 (12 / 100) 1 5).2.1.getD 1 0 = 760479 / 12800000 := by
  rw [naca4_eq]
  show ((linspace 1 5).map (yUpperP 0 0 (12 / 100) 1)).getD 1 0 = _
  unfold linspace
  rw [List.map_map, getD_map_range _ _ _ (by norm_num : 1 < 5)]
  show yUpperP 0 0 (12 / 100) 1 (station 1 5 1) = _
  have hst : station 1 5 1 = 1 / 4 := by
    unfold station
    norm_num
  have hsqrt : Real.sqrt ((1 / 4 : ℝ) / 1) = 1 / 2 := by
    rw [show ((1 / 4 : ℝ) / 1) = (1 / 2) ^ 2 by norm_num,
      Real.sqrt_sq (by norm_num : (0 : ℝ) ≤ 1 / 2)]
  rw [hst]
  unfold yUpperP ycP dycP ytP
  rw [if_pos rfl, if_pos rfl, Real.arctan_zero, Real.cos_zero, hsqrt]
  norm_num

/-- Claim C3 (amended): `naca4(0, 0, 0.12, 1, 5)` returns
`x = [0, 1/4, 1/2, 3/4, 1]`, a lower surface that is the pointwise
negation of the upper surface, and `y_upper` at `x = 1/4` exactly
`760479/12800000 ≈ 0.0594124` (the spec's figure `0.0586` is off by about
`8.1·10⁻⁴`). -/
theorem naca4_0012_n5_values :
    (naca4 0 0 (12 / 100) 1 5).1 = [0, 1 / 4, 1 / 2, 3 / 4, 1] ∧
    (naca4 0 0 (12 / 100) 1 5).2.2 =
      ((naca4 0 0 (12 / 100) 1 5).2.1).map (fun y => -y) ∧
    (naca4 0 0 (12 / 100) 1 5).2.1.getD 1 0 = 760479 / 12800000 := by
  refine ⟨?_, naca4_lower_neg_upper 0 (12 / 100) 1 5,
    naca4_0012_upper_at_quarter⟩
  rw [naca4_eq]
  show linspace 1 5 = _
  unfold linspace station
  norm_num [List.range_succ]

/-- Claim C3 (counterexample to the stated figure): the upper-surface
ordinate of `naca4(0, 0, 0.12, 1, 5)` at `x = 1/4` differs from the
spec's `0.0586` by more than `5·10⁻⁴`, i.e. it is not `≈ 0.0586` within
small numeric tolerance (the true value is `≈ 0.0594124`). -/
theorem naca4_0012_n5_upper_ne_00586 :
    1 / 2000 <
      |(naca4 0 0 (12 / 100) 1 5).2.1.getD 1 0 - 586 / 10000| := by
  rw [naca4_0012_upper_at_quarter,
    abs_of_pos (by norm_num : (0 : ℝ) < 760479 / 12800000 - 586 / 10000)]
  norm_num

end

end Naca4
